import Mathlib

/- Verification development for the open-margins proxy servers: the
   book-catalogue aggregation and content-normalization pipeline
   (HtmlTextExtractor, JunkFilter, CatalogueAggregator, CatalogueCache,
   ContentRetriever, UrlTextFetcher) of src/server.js, src/nova/server.js and
   src/sylva/server.js.  JavaScript strings are modelled as `List Char` /
   `String`, clock time as `Int` milliseconds, and upstream HTTP traffic as
   explicit response oracles. -/

namespace OpenMargins

/-- Whitespace removed by the JavaScript `String.prototype.trim` (and
    matched by the `\\s` class): the ECMA-262 WhiteSpace and LineTerminator
    code points — tab, LF, VT, FF, CR, space, NBSP, the Ogham space mark,
    the U+2000–U+200A spaces, the line and paragraph separators, the narrow
    and medium mathematical spaces, the ideographic space and ZWNBSP. -/
def isJsWsB (c : Char) : Bool :=
  c = ' ' || c = '\t' || c = '\n' || c = '\r' || c = '\x0b' || c = '\x0c' ||
  c = '\u00a0' || c = '\u1680' || ('\u2000' ≤ c && c ≤ '\u200a') ||
  c = '\u2028' || c = '\u2029' || c = '\u202f' || c = '\u205f' ||
  c = '\u3000' || c = '\ufeff'

/-- Case-insensitive prefix test; models the `i` flag of the tag regexes
    (ASCII case folding, which is all the tag names need). -/
def ciPrefix : List Char → List Char → Bool
  | [], _ => true
  | _ :: _, [] => false
  | p :: ps, c :: cs => (c.toLower = p.toLower) && ciPrefix ps cs

/-- Index of the first `'>'` in the list, if any. -/
def findGtIdx : List Char → Option Nat
  | [] => none
  | c :: rest => if c = '>' then some 0 else (findGtIdx rest).map (· + 1)

/-- Position just past the first case-insensitive occurrence of `pat`,
    if `pat` occurs at all. -/
def findCiSubEnd (pat : List Char) : List Char → Option Nat
  | [] => if pat = [] then some 0 else none
  | c :: rest =>
    if ciPrefix pat (c :: rest) then some pat.length
    else (findCiSubEnd pat rest).map (· + 1)

/-- Fuel-indexed scanner for one global pass of the script/style removal
    regex (case-insensitive open tag, lazy body, literal close tag): removes
    each such element together with its content.  An opening tag without the
    literal close tag is left in place (the lazy regex finds no match there
    and scanning resumes one character later).  Every step consumes at least
    one input character, so the wrapper's fuel — the input length — is never
    exhausted. -/
def removeTagBlockF (tagName close : List Char) : Nat → List Char → List Char
  | 0, s => s
  | fuel + 1, s =>
    match s with
    | [] => []
    | c :: rest =>
      if c = '<' && ciPrefix tagName rest then
        let afterName := rest.drop tagName.length
        match findGtIdx afterName with
        | none => c :: removeTagBlockF tagName close fuel rest
        | some i =>
          let body := afterName.drop (i + 1)
          match findCiSubEnd close body with
          | none => c :: removeTagBlockF tagName close fuel rest
          | some j => removeTagBlockF tagName close fuel (body.drop j)
      else c :: removeTagBlockF tagName close fuel rest

/-- One global pass of `.replace(/<NAME[^>]*>[\s\S]*?<\/NAME>/gi, '')`. -/
def removeTagBlock (tagName close s : List Char) : List Char :=
  removeTagBlockF tagName close s.length s

/-- The block-level tag names of the newline-conversion regex
    `<\/?(p|div|h[1-6]|li|blockquote|tr|br)[^>]*>`. -/
def BLOCK_TAGS : List (List Char) :=
  ["p".data, "div".data, "h1".data, "h2".data, "h3".data, "h4".data,
   "h5".data, "h6".data, "li".data, "blockquote".data, "tr".data, "br".data]

/-- Does the text right after a `'<'` start an (optionally closing) block tag?
    The optional `\/?` consumes a leading slash when present; no alternative
    begins with `'/'`, so backtracking to the slash-less branch never helps. -/
def isBlockTagAt (rest : List Char) : Bool :=
  let afterSlash := match rest with
    | '/' :: t => t
    | t => t
  BLOCK_TAGS.any (fun tag => ciPrefix tag afterSlash)

/-- Fuel-indexed scanner for the block-tag-to-newline replacement (tags
    p, div, h1-h6, li, blockquote, tr, br, opening or closing, case
    insensitive): each block-level tag becomes one newline.  The match always
    ends at the first `'>'` after the `'<'` because none of `'/'` and the
    tag-name characters can be `'>'`. -/
def blockToNewlineF : Nat → List Char → List Char
  | 0, s => s
  | fuel + 1, s =>
    match s with
    | [] => []
    | c :: rest =>
      if c = '<' && isBlockTagAt rest then
        match findGtIdx rest with
        | some i => '\n' :: blockToNewlineF fuel (rest.drop (i + 1))
        | none => c :: blockToNewlineF fuel rest
      else c :: blockToNewlineF fuel rest

/-- The block-tag-to-newline replacement of `htmlToPlainText`. -/
def blockToNewline (s : List Char) : List Char :=
  blockToNewlineF s.length s

/-- Fuel-indexed scanner for `.replace(/<[^>]+>/g, '')`: strips every
    remaining complete tag.  `[^>]+` needs at least one character, so `"<>"`
    is not a match, and a `'<'` with no later `'>'` stays in the output. -/
def stripTagsF : Nat → List Char → List Char
  | 0, s => s
  | fuel + 1, s =>
    match s with
    | [] => []
    | c :: rest =>
      if c = '<' then
        match findGtIdx rest with
        | some 0 => c :: stripTagsF fuel rest
        | some (i + 1) => stripTagsF fuel (rest.drop (i + 2))
        | none => c :: stripTagsF fuel rest
      else c :: stripTagsF fuel rest

/-- The generic tag-stripping replacement `.replace(/<[^>]+>/g, '')`. -/
def stripTags (s : List Char) : List Char :=
  stripTagsF s.length s

/-- Fuel-indexed scanner for the global fixed-string replacement
    `.replace(/PAT/g, REP)` where the pattern is the literal `p :: ps`;
    scanning resumes after the replacement, which is itself never
    rescanned. -/
def replaceAllF (p : Char) (ps rep : List Char) : Nat → List Char → List Char
  | 0, s => s
  | fuel + 1, s =>
    match s with
    | [] => []
    | c :: rest =>
      if c = p && ps.isPrefixOf rest then
        rep ++ replaceAllF p ps rep fuel (rest.drop ps.length)
      else c :: replaceAllF p ps rep fuel rest

/-- Global fixed-string replacement `.replace(/PAT/g, REP)`. -/
def replaceAllL (p : Char) (ps rep s : List Char) : List Char :=
  replaceAllF p ps rep s.length s

/-- The fixed entity-decoding chain of `htmlToPlainText`, in source order
    (`&amp;` first, so `&amp;lt;` double-decodes to `<`, as in the code). -/
def decodeEntities (s0 : List Char) : List Char :=
  let s1 := replaceAllL '&' "amp;".data "&".data s0
  let s2 := replaceAllL '&' "lt;".data "<".data s1
  let s3 := replaceAllL '&' "gt;".data ">".data s2
  let s4 := replaceAllL '&' "quot;".data "\"".data s3
  let s5 := replaceAllL '&' "#039;".data "'".data s4
  let s6 := replaceAllL '&' "nbsp;".data " ".data s5
  let s7 := replaceAllL '&' "#8211;".data "–".data s6
  let s8 := replaceAllL '&' "#8212;".data "—".data s7
  let s9 := replaceAllL '&' "#8216;".data "‘".data s8
  let s10 := replaceAllL '&' "#8217;".data "’".data s9
  let s11 := replaceAllL '&' "#8220;".data "“".data s10
  replaceAllL '&' "#8221;".data "”".data s11

/-- State-machine core of the newline-run collapse, scanning with the
    number of newlines already seen in the current run: the first two
    newlines of every maximal run are kept and the rest dropped, which is
    exactly the effect of replacing each run of three or more newlines by
    two while copying shorter runs unchanged. -/
def collapseNLGo (k : Nat) : List Char → List Char
  | [] => []
  | c :: rest =>
    if c = '\n' then
      if k < 2 then '\n' :: collapseNLGo (k + 1) rest else collapseNLGo k rest
    else c :: collapseNLGo 0 rest

/-- The newline collapse of `htmlToPlainText`. -/
def collapseNL (s : List Char) : List Char := collapseNLGo 0 s

/-- Horizontal whitespace of the `[ \t]{2,}` regex. -/
def isHws (c : Char) : Bool := c = ' ' || c = '\t'

/-- Flushes the pending horizontal-whitespace run of the collapse scanner:
    a lone space or tab is emitted unchanged; a run that reached two or more
    characters became a single space. -/
def hwsFlush : Option (Char × Bool) → List Char
  | none => []
  | some (c, false) => [c]
  | some (_, true) => [' ']

/-- State-machine core of the horizontal-whitespace collapse: `pending`
    records the current run of spaces and tabs (its first character, and
    whether it has at least two characters); the run is flushed at the next
    non-member character or at the end of input, reproducing the replacement
    of each maximal run of two or more spaces/tabs by one space while a
    single space or tab stays as it is. -/
def collapseHwsGo (pending : Option (Char × Bool)) : List Char → List Char
  | [] => hwsFlush pending
  | c :: rest =>
    if isHws c then
      match pending with
      | none => collapseHwsGo (some (c, false)) rest
      | some (c0, _) => collapseHwsGo (some (c0, true)) rest
    else hwsFlush pending ++ c :: collapseHwsGo none rest

/-- The horizontal-whitespace collapse of `htmlToPlainText`. -/
def collapseHws (s : List Char) : List Char := collapseHwsGo none s

/-- Removes trailing JavaScript whitespace (the right half of `.trim()`). -/
def dropTrailingWs : List Char → List Char
  | [] => []
  | c :: rest =>
    let r := dropTrailingWs rest
    if r.isEmpty && isJsWsB c then [] else c :: r

/-- `.trim()`. -/
def trimChars (s : List Char) : List Char :=
  dropTrailingWs (s.dropWhile isJsWsB)

/-- `htmlToPlainText` of src/server.js (identical in the nova and sylva
    variants): script/style removal, block tags to newlines, generic tag
    stripping, fixed entity decoding, newline and horizontal-whitespace
    collapsing, trim — in exactly the source order. -/
def htmlToPlainTextL (s : List Char) : List Char :=
  trimChars (collapseHws (collapseNL (decodeEntities
    (stripTags (blockToNewline
      (removeTagBlock "style".data "</style>".data
        (removeTagBlock "script".data "</script>".data s)))))))

/-- String-level wrapper for `htmlToPlainTextL`. -/
def htmlToPlainText (s : String) : String :=
  ⟨htmlToPlainTextL s.data⟩

/-- The narrow title helper `stripHtml`: strip tags, decode only `&amp;`
    and `&#8211;`, trim. -/
def stripHtml (s : String) : String :=
  ⟨trimChars (replaceAllL '&' "#8211;".data "–".data
    (replaceAllL '&' "amp;".data "&".data (stripTags s.data)))⟩

/-- First-occurrence-only fixed-string replacement: JavaScript
    `String.prototype.replace` with a string (not regex) pattern. -/
def replaceFirstL (p : Char) (ps rep : List Char) : List Char → List Char
  | [] => []
  | c :: rest =>
    if c = p && ps.isPrefixOf rest then rep ++ rest.drop ps.length
    else c :: replaceFirstL p ps rep rest

/-- Substring test (JavaScript `String.prototype.includes`). -/
def containsSub (pat : List Char) : List Char → Bool
  | [] => pat.isEmpty
  | c :: rest => pat.isPrefixOf (c :: rest) || containsSub pat rest

/-- JavaScript `String.prototype.toLowerCase` (ASCII folding suffices for the
    keyword and hostname comparisons of this code). -/
def lowerStr (s : String) : String := ⟨s.data.map Char.toLower⟩

/-- JavaScript `String.prototype.startsWith`. -/
def jsStartsWith (pre s : String) : Bool := pre.data.isPrefixOf s.data

/-- JavaScript `String.prototype.endsWith`. -/
def jsEndsWith (suf s : String) : Bool := suf.data.isSuffixOf s.data

/-- JavaScript `a || d` for a possibly-absent string `a`: `undefined` and the
    empty string are falsy, any other string is returned unchanged. -/
def jsOr (a : Option String) (d : String) : String :=
  match a with
  | some s => if s = "" then d else s
  | none => d

/-- A `{code, name}` license object of the upstream record. -/
structure LicenseObj where
  code : Option String
  name : Option String
deriving DecidableEq

/-- A `{name}` element of the upstream `metadata.author` / `metadata.about`
    arrays, modelled by its `name` field. -/
structure NameObj where
  name : Option String
deriving DecidableEq

/-- The `metadata` object of a raw upstream catalogue record.  `none` fields
    model absent (`undefined`) properties; `inCatalog` is compared with
    `=== true`, so only `some true` counts. -/
structure RawMeta where
  inCatalog : Option Bool := none
  name : Option String := none
  author : Option (List NameObj) := none
  license : Option LicenseObj := none
  about : Option (List NameObj) := none
  wordCount : Option Nat := none
  lastUpdated : Option String := none
deriving DecidableEq

/-- A raw upstream catalogue record as consumed by `isJunkBook` and
    `parseBook`. -/
structure RawBook where
  id : Option Nat := none
  title : Option String := none
  link : Option String := none
  metadata : Option RawMeta := none
deriving DecidableEq

/-- `b.metadata || {}`. -/
def metaOf (b : RawBook) : RawMeta := b.metadata.getD {}

/-- `JUNK_SLUG_KEYWORDS` of the junk filter (identical in every variant). -/
def JUNK_SLUG_KEYWORDS : List String :=
  ["sandbox", "sample", "test", "demo", "h5p", "hypothesis", "import",
   "workshop", "template", "training", "trial", "temp", "-dev", "devsite", "dev2"]

/-- `JUNK_TITLE_KEYWORDS` of the junk filter. -/
def JUNK_TITLE_KEYWORDS : List String :=
  ["sandbox", "sample", "testbook", "test book", "demo book", "workshop",
   "template", "dev site", "dev 2"]

/-- The slug derivation inside `isJunkBook`: lowercase the link, then strip
    the first occurrence of `https://`, of `.pressbooks.tru.ca/` and of `/`
    (each `String.replace` with a string pattern replaces only the first
    occurrence). -/
def slugOf (b : RawBook) : List Char :=
  let link := (lowerStr (jsOr b.link "")).data
  replaceFirstL '/' "".data "".data
    (replaceFirstL '.' "pressbooks.tru.ca/".data "".data
      (replaceFirstL 'h' "ttps://".data "".data link))

/-- `isJunkBook` of src/server.js (identical in nova and sylva): books
    explicitly marked `inCatalog === true` are never junk; otherwise keyword
    substring matches on the derived slug and the lowercase title decide. -/
def isJunkBook (b : RawBook) : Bool :=
  let meta := metaOf b
  if meta.inCatalog = some true then false
  else
    let slug := slugOf b
    let title := (lowerStr (jsOr meta.name "")).data
    if JUNK_SLUG_KEYWORDS.any (fun k => containsSub k.data slug) then true
    else if JUNK_TITLE_KEYWORDS.any (fun k => containsSub k.data title) then true
    else false

/-- A shaped `CatalogueEntry` as pushed by the aggregator. -/
structure Book where
  id : Option Nat
  title : String
  link : String
  author : String
  license : String
  subject : String
  inCatalog : Bool
  wordCount : Nat
  lastUpdated : String
deriving DecidableEq

/-- `arr.map(a => a.name).filter(Boolean).join(', ')`. -/
def joinNames (arr : List NameObj) : String :=
  String.intercalate ", "
    (arr.filterMap (fun a => match a.name with
      | some s => if s = "" then none else some s
      | none => none))

/-- `(b.link || '').replace(/\/$/, '')`: drop one trailing slash. -/
def linkNoSlash (l : Option String) : String :=
  let s := jsOr l ""
  if jsEndsWith "/" s then ⟨s.data.dropLast⟩ else s

/-- `parseBook` of src/nova/server.js (the same construction appears inline
    in the src/server.js aggregation loop and verbatim in sylva). -/
def parseBook (b : RawBook) : Book :=
  let meta := metaOf b
  let title := jsOr meta.name (jsOr b.title "Untitled")
  { id := b.id
    title := ⟨trimChars title.data⟩
    link := linkNoSlash b.link
    author := joinNames (meta.author.getD [])
    license := jsOr (meta.license.bind (fun l => l.code))
                 (jsOr (meta.license.bind (fun l => l.name)) "")
    subject := joinNames (meta.about.getD [])
    inCatalog := meta.inCatalog = some true
    wordCount := meta.wordCount.getD 0
    lastUpdated := jsOr meta.lastUpdated "" }

/-- Value of a leading run of decimal digits, if nonempty. -/
def digitsVal (l : List Char) : Option Nat :=
  let ds := l.takeWhile (fun c => c.isDigit)
  if ds.isEmpty then none
  else some (ds.foldl (fun n c => n * 10 + (c.toNat - 48)) 0)

/-- `parseInt(s, 10)`: skip leading whitespace, optional sign, read leading
    decimal digits; `none` models `NaN`. -/
def jsParseInt (s : String) : Option Int :=
  match s.data.dropWhile isJsWsB with
  | '-' :: rest => (digitsVal rest).map (fun n => -(n : Int))
  | '+' :: rest => (digitsVal rest).map (fun n => (n : Int))
  | rest => (digitsVal rest).map (fun n => (n : Int))

/-- The comparator relation `a.title.localeCompare(b.title) <= 0` under an
    abstract locale comparison `cmp`. -/
def titleLe (cmp : String → String → Ordering) (a b : Book) : Prop :=
  cmp a.title b.title ≠ Ordering.gt

instance (cmp : String → String → Ordering) : DecidableRel (titleLe cmp) :=
  fun a b => inferInstanceAs (Decidable (cmp a.title b.title ≠ Ordering.gt))

/-- `allBooks.sort((a, b) => a.title.localeCompare(b.title))`.
    `Array.prototype.sort` is stable (ECMA-262); for a consistent comparator
    the sorted stable permutation is unique, so it is modelled by insertion
    sort over the comparator's non-positive relation. -/
def sortBooks (cmp : String → String → Ordering) (l : List Book) : List Book :=
  List.insertionSort (titleLe cmp) l

instance {ε α : Type} [DecidableEq ε] [DecidableEq α] : DecidableEq (Except ε α) :=
  fun x y =>
    match x, y with
    | .ok a, .ok b =>
      if h : a = b then isTrue (by rw [h])
      else isFalse (by intro hh; injection hh; exact h (by assumption))
    | .error a, .error b =>
      if h : a = b then isTrue (by rw [h])
      else isFalse (by intro hh; injection hh; exact h (by assumption))
    | .ok _, .error _ => isFalse (by intro hh; exact Except.noConfusion hh)
    | .error _, .ok _ => isFalse (by intro hh; exact Except.noConfusion hh)

/-- One upstream page-fetch outcome of the paginated `/books` endpoint:
    either the fetch promise rejects at transport level with an error
    message (no HTTP response exists), or it resolves to a response with a
    success flag, a status, the `X-WP-TotalPages` header and a JSON body
    (`body = none` models a body that is not an array). -/
inductive PageResponse
  | netFail (msg : String)
  | response (ok : Bool) (status : Nat) (totalPagesHeader : Option String)
      (body : Option (List RawBook))

/-- Did the fetch resolve with a success status?  A transport failure never
    produces a response, so it is never ok. -/
def PageResponse.ok : PageResponse → Bool
  | .netFail _ => false
  | .response ok _ _ _ => ok

/-- Status of the resolved response (a transport failure has none). -/
def PageResponse.status : PageResponse → Nat
  | .netFail _ => 0
  | .response _ s _ _ => s

/-- The `X-WP-TotalPages` header of the resolved response. -/
def PageResponse.totalPagesHeader : PageResponse → Option String
  | .netFail _ => none
  | .response _ _ h _ => h

/-- JSON body of the resolved response. -/
def PageResponse.body : PageResponse → Option (List RawBook)
  | .netFail _ => none
  | .response _ _ _ b => b

/-- The upstream catalogue: page number to fetch outcome. -/
def Oracle := Nat → PageResponse

/-- The error a failing page fetch propagates to the handler's catch block:
    a non-success response throws the handler's own
    `Pressbooks returned HTTP <status> on page <page>`, carrying the page
    number and upstream status, while a transport-level rejection propagates
    its own message (e.g. `fetch failed`), which carries neither. -/
inductive AggErr
  | http (page status : Nat)
  | network (msg : String)
deriving DecidableEq

/-- The error thrown for page `p` when its fetch did not succeed: a
    transport rejection happens before any status exists and yields the
    page-less network error; a resolved non-success response yields the
    page-and-status error. -/
def pageErr (p : Nat) : PageResponse → AggErr
  | .netFail m => .network m
  | .response _ s _ _ => .http p s

/-- `booksCache` / `booksCacheTime` of nova (and sylva): `none` is the
    initial `null`; a cached array — even an empty one — is truthy. -/
structure CacheState where
  booksCache : Option (List Book)
  booksCacheTime : Int
deriving DecidableEq

/-- `BOOKS_CACHE_TTL = 10 * 60 * 1000` (10 minutes in milliseconds). -/
def BOOKS_CACHE_TTL : Int := 10 * 60 * 1000

/-- The cache condition
    `booksCache && (Date.now() - booksCacheTime) < BOOKS_CACHE_TTL`. -/
def cacheFresh (st : CacheState) (now : Int) : Bool :=
  st.booksCache.isSome && decide (now - st.booksCacheTime < BOOKS_CACHE_TTL)

/-- `parseInt(r.headers.get('X-WP-TotalPages') || '1', 10)`.  A `NaN`
    (`none`) is mapped to 1: `totalPages` is only used as the bound of the
    page loop, and `p <= NaN` is false for every `p ≥ 2`, exactly as
    `p <= 1` is. -/
def totalPagesOf (r : PageResponse) : Int :=
  (jsParseInt (r.totalPagesHeader.getD "1")).getD 1

/-- The remaining pages `2..totalPages` issued after page 1. -/
def pagesToFetch (totalPages : Int) : List Nat :=
  List.range' 2 (totalPages - 1).toNat

/-- `Promise.all` over the remaining page fetches, fail-fast.  When several
    pages fail, the real handler reports whichever rejection settles first;
    the model resolves that timing nondeterminism to the lowest-numbered
    failing page. -/
def gatherPages (oracle : Oracle) :
    List Nat → Except AggErr (List (Option (List RawBook)))
  | [] => .ok []
  | p :: rest =>
    let r := oracle p
    if r.ok then (gatherPages oracle rest).map (fun l => r.body :: l)
    else .error (pageErr p r)

/-- `Array.prototype.flat` on one page body: an array contributes its
    elements; a non-array JSON value stays one element, whose property reads
    all yield `undefined` — i.e. the all-absent raw record. -/
def flatPage (b : Option (List RawBook)) : List RawBook :=
  match b with
  | some l => l
  | none => [{}]

/-- `.filter(b => showAll || !isJunkBook(b)).map(parseBook)`. -/
def filterShape (showAll : Bool) (raw : List RawBook) : List Book :=
  (raw.filter (fun b => showAll || !isJunkBook b)).map parseBook

/-- Observable outcome of one nova `/api/books` call: the HTTP result, the
    cache state afterwards, and every upstream page request issued, in issue
    order. -/
structure NovaOut where
  result : Except AggErr (List Book)
  newCache : CacheState
  fetchedPages : List Nat
deriving DecidableEq

/-- The `/api/books` handler of src/nova/server.js (and, identically, the
    sylva Companion server): cache check, sequential page-1 fetch, parallel
    fetches of pages `2..totalPages` (all issued up front), flatten, filter,
    shape, sort, cache write on the filtered view.  `cmp` abstracts
    `String.prototype.localeCompare` under the runtime locale. -/
def listBooksNova (cmp : String → String → Ordering) (showAll : Bool)
    (st : CacheState) (now : Int) (oracle : Oracle) : NovaOut :=
  if !showAll && cacheFresh st now then
    ⟨.ok (st.booksCache.getD []), st, []⟩
  else
    let r1 := oracle 1
    if !r1.ok then ⟨.error (pageErr 1 r1), st, [1]⟩
    else
      let pages := pagesToFetch (totalPagesOf r1)
      match gatherPages oracle pages with
      | .error e => ⟨.error e, st, 1 :: pages⟩
      | .ok bodies =>
        let rawBooks := flatPage r1.body ++ (bodies.map flatPage).flatten
        let allBooks := sortBooks cmp (filterShape showAll rawBooks)
        if showAll then ⟨.ok allBooks, st, 1 :: pages⟩
        else ⟨.ok allBooks, ⟨some allBooks, now⟩, 1 :: pages⟩

/-- The src/server.js while-loop body for the pages after the first: fetch
    in order, throw on a non-success status, break — fetching no further
    pages — on an empty or non-array body, otherwise filter-shape and
    accumulate.  Returns the outcome and the pages actually fetched. -/
def seqPages (oracle : Oracle) (showAll : Bool) :
    List Nat → Except AggErr (List Book) × List Nat
  | [] => (.ok [], [])
  | p :: rest =>
    let r := oracle p
    if !r.ok then (.error (pageErr p r), [p])
    else
      match r.body with
      | none => (.ok [], [p])
      | some [] => (.ok [], [p])
      | some bs =>
        let out := seqPages oracle showAll rest
        (out.1.map (fun l => filterShape showAll bs ++ l), p :: out.2)

/-- Observable outcome of one src/server.js `/api/books` call. -/
structure SeqOut where
  result : Except AggErr (List Book)
  fetchedPages : List Nat
deriving DecidableEq

/-- The `/api/books` handler of src/server.js: a sequential while loop from
    page 1, the total-page count read from the page-1 header, the
    empty-page/non-array break, one sort at the end.  This variant has no
    cache. -/
def listBooksSeq (cmp : String → String → Ordering) (showAll : Bool)
    (oracle : Oracle) : SeqOut :=
  let r1 := oracle 1
  if !r1.ok then ⟨.error (pageErr 1 r1), [1]⟩
  else
    match r1.body with
    | none => ⟨.ok (sortBooks cmp []), [1]⟩
    | some [] => ⟨.ok (sortBooks cmp []), [1]⟩
    | some bs =>
      let out := seqPages oracle showAll (pagesToFetch (totalPagesOf r1))
      ⟨out.1.map (fun l => sortBooks cmp (filterShape showAll bs ++ l)),
       1 :: out.2⟩

/-- A parsed URL: the `protocol` (with trailing colon, as the WHATWG API
    reports it) and the lowercased `hostname`. -/
structure ParsedUrl where
  protocol : String
  hostname : String
deriving DecidableEq

/-- Hostname of an authority component: the part after the last `'@'` and
    before the first `':'`, lowercased. -/
def hostnameOfAuthority (auth : List Char) : List Char :=
  let afterUser := (auth.reverse.takeWhile (fun c => c ≠ '@')).reverse
  (afterUser.takeWhile (fun c => c ≠ ':')).map Char.toLower

/-- Scheme characters accepted by the URL parser. -/
def isSchemeChar (c : Char) : Bool :=
  c.isAlpha || c.isDigit || c = '+' || c = '-' || c = '.'

/-- Models the `new URL(s)` builtin for the absolute `scheme://...` URLs
    this server validates; parse failure (the constructor throwing) is
    `none`.  Only the `protocol` and `hostname` members are consumed by the
    handlers. -/
def parseUrl (s : String) : Option ParsedUrl :=
  match findCiSubEnd "://".data s.data with
  | none => none
  | some e =>
    let scheme := s.data.take (e - 3)
    let authority :=
      (s.data.drop e).takeWhile (fun c => c ≠ '/' && c ≠ '?' && c ≠ '#')
    let host := hostnameOfAuthority authority
    let schemeOk := match scheme with
      | [] => false
      | c :: _ => c.isAlpha && scheme.all isSchemeChar
    if schemeOk && !host.isEmpty then
      some ⟨⟨scheme.map Char.toLower ++ [':']⟩, ⟨host⟩⟩
    else none

/-- Outcome of the validation prefix of the `/api/toc` handler: an HTTP-400
    ValidationError, or the upstream URL the handler goes on to fetch. -/
inductive TocStep
  | validationError (msg : String)
  | fetchToc (url : String)
deriving DecidableEq

/-- `/api/toc` up to the upstream fetch: missing/empty `bookUrl`, URL parse,
    and the host check
    `!hostname.endsWith('.pressbooks.tru.ca') && hostname !== 'pressbooks.tru.ca'`. -/
def getTocStep (bookUrl : Option String) : TocStep :=
  if jsOr bookUrl "" = "" then
    .validationError "bookUrl query parameter is required."
  else
    let u := jsOr bookUrl ""
    match parseUrl u with
    | none => .validationError "bookUrl is not a valid URL."
    | some p =>
      if !(jsEndsWith ".pressbooks.tru.ca" p.hostname) &&
          p.hostname ≠ "pressbooks.tru.ca" then
        .validationError "bookUrl must be a pressbooks.tru.ca subdomain."
      else .fetchToc (u ++ "/wp-json/pressbooks/v2/toc")

/-- Outcome of the validation prefix of the `/api/chapter` handler. -/
inductive ChapterStep
  | validationError (msg : String)
  | fetchChapter (url : String)
deriving DecidableEq

/-- `/api/chapter` up to the upstream fetch: same host validation as
    `/api/toc`, plus the required `chapterId`. -/
def getChapterStep (bookUrl chapterId : Option String) : ChapterStep :=
  if jsOr bookUrl "" = "" || jsOr chapterId "" = "" then
    .validationError "bookUrl and chapterId query parameters are required."
  else
    let u := jsOr bookUrl ""
    match parseUrl u with
    | none => .validationError "bookUrl is not a valid URL."
    | some p =>
      if !(jsEndsWith ".pressbooks.tru.ca" p.hostname) &&
          p.hostname ≠ "pressbooks.tru.ca" then
        .validationError "bookUrl must be a pressbooks.tru.ca subdomain."
      else .fetchChapter (u ++ "/wp-json/pressbooks/v2/chapters/" ++ jsOr chapterId "")

/-- The sixteen concrete prefixes matched by `^172\.(1[6-9]|2\d|3[01])\.`. -/
def PRIVATE_172_PREFIXES : List String :=
  ["172.16.", "172.17.", "172.18.", "172.19.", "172.20.", "172.21.",
   "172.22.", "172.23.", "172.24.", "172.25.", "172.26.", "172.27.",
   "172.28.", "172.29.", "172.30.", "172.31."]

/-- `FETCH_URL_BLOCKLIST.some(re => re.test(parsed.hostname))`: the anchored
    patterns `^localhost` (case-insensitive; the parser already lowercases
    hostnames), `^127\.`, `^10\.`, `^192\.168\.` and the private 172 range. -/
def inBlocklist (h : String) : Bool :=
  jsStartsWith "localhost" h || jsStartsWith "127." h || jsStartsWith "10." h ||
  jsStartsWith "192.168." h || PRIVATE_172_PREFIXES.any (fun p => jsStartsWith p h)

/-- One upstream response for `/api/fetch-url`; `timedOut` models the abort
    timer firing (`AbortError`). -/
structure UrlResponse where
  ok : Bool
  status : Nat
  timedOut : Bool
  contentType : Option String
  body : String

/-- The classified responses of the `/api/fetch-url` handler
    (HTTP 400 / 400 / 504 / 502 / 415 / 422 / 200). -/
inductive FetchUrlResult
  | validationError (msg : String)
  | blockedHost
  | timeout
  | upstreamError (status : Nat)
  | unsupportedContent (ct : String)
  | noContent
  | ok (title text : String) (wordCount : Nat)
deriving DecidableEq

/-- First match of `/<title[^>]*>([^<]*)<\/title>/i`: the captured group.
    At a failing start position only the maximal `[^<]*` capture could ever
    precede a literal `</title>`, so on failure the scan moves one character
    to the right, as the regex engine does. -/
def findTitleMatch : List Char → Option (List Char)
  | [] => none
  | c :: rest =>
    if c = '<' && ciPrefix "title".data rest then
      let afterName := rest.drop 5
      match findGtIdx afterName with
      | some i =>
        let afterGt := afterName.drop (i + 1)
        let captured := afterGt.takeWhile (fun c2 => c2 ≠ '<')
        if ciPrefix "</title>".data (afterGt.drop captured.length) then
          some captured
        else findTitleMatch rest
      | none => findTitleMatch rest
    else findTitleMatch rest

/-- Fuel-indexed counter behind the word count
    `text.split(/\\s+/).filter(Boolean).length`: the number of maximal
    non-whitespace runs. -/
def countWordsF : Nat → List Char → Nat
  | 0, _ => 0
  | fuel + 1, s =>
    match s with
    | [] => 0
    | c :: rest =>
      if isJsWsB c then countWordsF fuel rest
      else 1 + countWordsF fuel (rest.dropWhile (fun c2 => !isJsWsB c2))

/-- `text.split(/\\s+/).filter(Boolean).length`. -/
def countWordsL (s : List Char) : Nat := countWordsF s.length s

/-- The `/api/fetch-url` handler of src/server.js and src/sylva/server.js,
    up to the response sent: validation, SSRF blocklist, timeout, upstream
    status, content-type gate, title extraction, text extraction and the
    20-character minimum gate.  String length models the JavaScript
    `.length` (UTF-16 units; every character this pipeline produces is in
    the basic plane).  The second component records whether the network was
    contacted. -/
def fetchUrlStep (url : Option String) (resp : UrlResponse) :
    FetchUrlResult × Bool :=
  if jsOr url "" = "" then
    (.validationError "url query parameter is required.", false)
  else
    match parseUrl (jsOr url "") with
    | none => (.validationError "Invalid URL.", false)
    | some p =>
      if !(p.protocol = "http:" || p.protocol = "https:") then
        (.validationError "Only http and https URLs are supported.", false)
      else if inBlocklist p.hostname then (.blockedHost, false)
      else if resp.timedOut then (.timeout, true)
      else if !resp.ok then (.upstreamError resp.status, true)
      else
        let ct := resp.contentType.getD ""
        if !(containsSub "text/html".data ct.data ||
             containsSub "text/plain".data ct.data ||
             containsSub "application/xhtml".data ct.data) then
          (.unsupportedContent ct, true)
        else
          let title := match findTitleMatch resp.body.data with
            | some cap => String.mk (trimChars cap)
            | none => p.hostname
          let text := htmlToPlainText resp.body
          if text.length < 20 then (.noContent, true)
          else (.ok title text (countWordsL text.data), true)

/-- Scanning acceptor for the no-triple-newline property: `okNL k s` holds
    when `s`, read with `k` pending consecutive newlines already seen, never
    accumulates three newlines in a row. -/
def okNL : Nat → List Char → Bool
  | _, [] => true
  | k, c :: rest =>
    if c = '\n' then decide (k + 1 ≤ 2) && okNL (k + 1) rest else okNL 0 rest

/-! Concrete fixtures used by witnesses and counterexamples. -/

/-- A degenerate locale comparison under which all titles tie: a legal total
    preorder, used to instantiate the comparator in concrete runs. -/
def cmpEq : String → String → Ordering := fun _ _ => Ordering.eq

/-- A raw record carrying only a metadata name. -/
def namedBook (t : String) : RawBook := { metadata := some { name := some t } }

/-- An upstream that fails every page with HTTP 500. -/
def orcDown : Oracle := fun _ => .response false 500 none none

/-- An upstream declaring three pages whose second page is an empty array. -/
def orcEmptyMid : Oracle := fun p =>
  if p = 1 then .response true 200 (some "3") (some [namedBook "Zebra"])
  else if p = 2 then .response true 200 none (some [])
  else if p = 3 then .response true 200 none (some [namedBook "Mango"])
  else .response false 404 none none

/-- An upstream declaring four pages whose third page fails with HTTP 500. -/
def orcFail3 : Oracle := fun p =>
  if p = 1 then .response true 200 (some "4") (some [namedBook "Alpha"])
  else if p = 3 then .response false 500 none none
  else .response true 200 none (some [namedBook "Beta"])

/-- A single-page upstream whose only record has a whitespace-only name. -/
def orcSpaceName : Oracle := fun p =>
  if p = 1 then .response true 200 (some "1") (some [namedBook " "])
  else .response false 404 none none

/-- An upstream declaring four pages whose third page is empty; pages 2 and
    4 carry records. -/
def orcSeqEmpty : Oracle := fun p =>
  if p = 1 then .response true 200 (some "4") (some [namedBook "One"])
  else if p = 3 then .response true 200 none (some [])
  else .response true 200 none (some [namedBook "Page"])

/-- An upstream declaring three pages whose second page fetch rejects at
    transport level. -/
def orcNetDown : Oracle := fun p =>
  if p = 2 then .netFail "fetch failed"
  else .response true 200 (some "3") (some [namedBook "Alpha"])

/-- A generic successful HTML response for `/api/fetch-url` runs. -/
def respHtml : UrlResponse :=
  ⟨true, 200, false, some "text/html", "hello"⟩

/-- A successful HTML response whose extracted text is under 20 characters. -/
def respShort : UrlResponse :=
  ⟨true, 200, false, some "text/html", "<p>short</p>"⟩

/-! Helper lemmas. -/

/-- A JavaScript-falsy optional string is replaced by any default. -/
theorem jsOr_of_falsy {a : Option String} (h : jsOr a "" = "") (d : String) :
    jsOr a d = d := by
  cases a with
  | none => rfl
  | some s =>
    simp only [jsOr] at h ⊢
    by_cases hs : s = "" <;> simp [hs] at h ⊢

/-! Claim C3. -/

/-- C3: an entry whose explicit-inclusion flag `metadata.inCatalog` equals
    `true` is never classified junk, regardless of title and slug content;
    an entry whose flag is not `true` and whose derived lowercase slug
    contains the substring `"sandbox"` is always junk. -/
theorem c3_junk_filter (b : RawBook) :
    ((metaOf b).inCatalog = some true → isJunkBook b = false) ∧
    ((metaOf b).inCatalog ≠ some true →
      containsSub "sandbox".data (slugOf b) = true → isJunkBook b = true) := by
  constructor
  · intro h
    simp [isJunkBook, h]
  · intro h hsub
    have hany : JUNK_SLUG_KEYWORDS.any (fun k => containsSub k.data (slugOf b)) = true :=
      List.any_eq_true.mpr ⟨"sandbox", by simp [JUNK_SLUG_KEYWORDS], hsub⟩
    simp [isJunkBook, h, hany]

/-- Witness for C3 at two concrete records sharing a sandbox slug. -/
theorem c3_junk_filter_witness :
    isJunkBook { link := some "https://foosandbox.pressbooks.tru.ca/",
                 metadata := some { inCatalog := some true, name := some "Good" } } = false ∧
    isJunkBook { link := some "https://foosandbox.pressbooks.tru.ca/",
                 metadata := some { name := some "Good" } } = true :=
  ⟨(c3_junk_filter _).1 (by decide), (c3_junk_filter _).2 (by decide) (by decide)⟩

/-! Claim C2. -/

/-- C2: `/api/toc` and `/api/chapter` reject with a ValidationError — before
    any upstream fetch — every `bookUrl` whose hostname is neither exactly
    `pressbooks.tru.ca` nor ends with `.pressbooks.tru.ca`; the upstream
    fetch is reached only when the hostname passes this exact suffix match. -/
theorem c2_host_validation :
    (∀ u p, parseUrl u = some p → p.hostname ≠ "pressbooks.tru.ca" →
      jsEndsWith ".pressbooks.tru.ca" p.hostname = false →
      getTocStep (some u) =
        .validationError "bookUrl must be a pressbooks.tru.ca subdomain." ∧
      ∀ cid, ∃ m, getChapterStep (some u) cid = .validationError m) ∧
    (∀ u t, getTocStep (some u) = .fetchToc t →
      ∃ p, parseUrl u = some p ∧
        (p.hostname = "pressbooks.tru.ca" ∨
         jsEndsWith ".pressbooks.tru.ca" p.hostname = true)) ∧
    (∀ u cid t, getChapterStep (some u) (some cid) = .fetchChapter t →
      ∃ p, parseUrl u = some p ∧
        (p.hostname = "pressbooks.tru.ca" ∨
         jsEndsWith ".pressbooks.tru.ca" p.hostname = true)) := by
  have hempty : parseUrl "" = none := by decide
  refine ⟨fun u p hp hne hsuf => ?_, fun u t h => ?_, fun u cid t h => ?_⟩
  · have hu : u ≠ "" := fun h => by rw [h, hempty] at hp; cases hp
    have hjs : jsOr (some u) "" = u := by simp [jsOr, hu]
    constructor
    · simp only [getTocStep, hjs, hu, if_false, hp]
      simp [hsuf, hne]
    · intro cid
      cases cid with
      | none =>
        exact ⟨"bookUrl and chapterId query parameters are required.",
          by simp [getChapterStep, jsOr]⟩
      | some c =>
        by_cases hc : c = ""
        · exact ⟨"bookUrl and chapterId query parameters are required.",
            by simp [getChapterStep, hjs, hu, hc, jsOr]⟩
        · refine ⟨"bookUrl must be a pressbooks.tru.ca subdomain.", ?_⟩
          simp only [getChapterStep, hjs, hu]
          simp only [jsOr, hc, if_false]
          simp [hu, hc, hp, hsuf, hne]
  · by_cases hu : u = ""
    · simp [getTocStep, hu, jsOr] at h
    · simp only [getTocStep, jsOr, hu, if_false] at h
      cases hp : parseUrl u with
      | none => rw [hp] at h; cases h
      | some p =>
        rw [hp] at h
        refine ⟨p, rfl, ?_⟩
        by_cases hh : jsEndsWith ".pressbooks.tru.ca" p.hostname = true
        · exact Or.inr hh
        · by_cases he : p.hostname = "pressbooks.tru.ca"
          · exact Or.inl he
          · simp [hh, he] at h
  · by_cases hu : u = ""
    · simp [getChapterStep, hu, jsOr] at h
    · by_cases hc : cid = ""
      · simp [getChapterStep, jsOr, hu, hc] at h
      · simp only [getChapterStep, jsOr, hu, hc, if_false] at h
        simp only [Bool.or_self, if_false] at h
        cases hp : parseUrl u with
        | none => rw [hp] at h; cases h
        | some p =>
          rw [hp] at h
          refine ⟨p, rfl, ?_⟩
          by_cases hh : jsEndsWith ".pressbooks.tru.ca" p.hostname = true
          · exact Or.inr hh
          · by_cases he : p.hostname = "pressbooks.tru.ca"
            · exact Or.inl he
            · simp [hh, he] at h

/-- Witness for C2 at `https://evil.com` and
    `https://pressbooks.tru.ca.evil.com`. -/
theorem c2_host_validation_witness :
    getTocStep (some "https://evil.com") =
      .validationError "bookUrl must be a pressbooks.tru.ca subdomain." ∧
    getTocStep (some "https://pressbooks.tru.ca.evil.com") =
      .validationError "bookUrl must be a pressbooks.tru.ca subdomain." ∧
    (∃ m, getChapterStep (some "https://evil.com") (some "7") = .validationError m) :=
  ⟨(c2_host_validation.1 "https://evil.com" ⟨"https:", "evil.com"⟩
      (by decide) (by decide) (by decide)).1,
   (c2_host_validation.1 "https://pressbooks.tru.ca.evil.com"
      ⟨"https:", "pressbooks.tru.ca.evil.com"⟩ (by decide) (by decide) (by decide)).1,
   (c2_host_validation.1 "https://evil.com" ⟨"https:", "evil.com"⟩
      (by decide) (by decide) (by decide)).2 (some "7")⟩

/-! Claim C6. -/

/-- C6 (amended): a `listBooks(false)` call is served from the cache with no
    network request exactly when the cache has ever been written (`booksCache`
    is non-null — an empty cached array is truthy and counts) and the time
    since capture is strictly under the 10-minute TTL.  Non-emptiness of the
    cached entries is not part of the condition. -/
theorem c6_cache_freshness (cmp : String → String → Ordering) (st : CacheState)
    (now : Int) (oracle : Oracle) :
    ((listBooksNova cmp false st now oracle).fetchedPages = [] ↔
      (st.booksCache.isSome = true ∧ now - st.booksCacheTime < BOOKS_CACHE_TTL)) ∧
    (cacheFresh st now = true →
      (listBooksNova cmp false st now oracle).result = .ok (st.booksCache.getD [])) := by
  have hiff : cacheFresh st now = true ↔
      (st.booksCache.isSome = true ∧ now - st.booksCacheTime < BOOKS_CACHE_TTL) := by
    simp [cacheFresh]
  by_cases hf : cacheFresh st now = true
  · exact ⟨by rw [← hiff]; simp [listBooksNova, hf],
           fun _ => by simp [listBooksNova, hf]⟩
  · have hne : (listBooksNova cmp false st now oracle).fetchedPages ≠ [] := by
      have hf2 : cacheFresh st now = false := by simpa using hf
      simp only [listBooksNova, hf2, Bool.not_false, Bool.true_and]
      split
      · simp_all
      · split
        · simp
        · split <;> simp
    exact ⟨by rw [← hiff]; simpa [hf] using hne,
           fun h => absurd h hf⟩

/-- Witness for C6 at an empty-but-written cache within TTL. -/
theorem c6_cache_freshness_witness :
    ((listBooksNova cmpEq false ⟨some [], 0⟩ 0 orcDown).fetchedPages = [] ↔
      ((some ([] : List Book)).isSome = true ∧ (0 : Int) - 0 < BOOKS_CACHE_TTL)) ∧
    (listBooksNova cmpEq false ⟨some [], 0⟩ 0 orcDown).result = .ok [] :=
  ⟨(c6_cache_freshness cmpEq ⟨some [], 0⟩ 0 orcDown).1,
   (c6_cache_freshness cmpEq ⟨some [], 0⟩ 0 orcDown).2 (by decide)⟩

/-- C6 counterexample: with an empty cached array written at time 0 and the
    clock still at 0, the call is served from the cache (no fetch issued),
    although the cached entry sequence is empty — refuting the claimed
    "fresh iff within TTL AND entries non-empty". -/
theorem c6_counterexample :
    ¬ ((listBooksNova cmpEq false ⟨some [], 0⟩ 0 orcDown).fetchedPages = [] ↔
       ((0 : Int) - 0 < BOOKS_CACHE_TTL ∧ ([] : List Book) ≠ [])) := by
  decide

/-! Claim C10. -/

/-- C10: on any failing `listBooks` call the nova/sylva cache is left exactly
    as it was; the cache is (re)written — with the final sorted list and the
    current time — only on a successful non-`showAll` aggregation. -/
theorem c10_cache_write_discipline (cmp : String → String → Ordering)
    (showAll : Bool) (st : CacheState) (now : Int) (oracle : Oracle) :
    (∀ e, (listBooksNova cmp showAll st now oracle).result = .error e →
      (listBooksNova cmp showAll st now oracle).newCache = st) ∧
    (∀ l, (listBooksNova cmp showAll st now oracle).result = .ok l →
      (listBooksNova cmp showAll st now oracle).newCache = st ∨
      (showAll = false ∧
        (listBooksNova cmp showAll st now oracle).newCache = ⟨some l, now⟩)) := by
  simp only [listBooksNova]
  split
  · refine ⟨fun e he => rfl, fun l hl => Or.inl rfl⟩
  · split
    · refine ⟨fun e he => rfl, fun l hl => ?_⟩
      cases hl
    · split
      · refine ⟨fun e he => rfl, fun l hl => ?_⟩
        cases hl
      · split
        · refine ⟨fun e he => ?_, fun l hl => Or.inl rfl⟩
          cases he
        · rename_i hshow
          refine ⟨fun e he => ?_, fun l hl => Or.inr ⟨?_, ?_⟩⟩
          · cases he
          · revert hshow
            cases showAll <;> simp
          · cases hl
            rfl

/-- Witness for C10: a failing page-1 fetch leaves the cache untouched. -/
theorem c10_cache_write_discipline_witness :
    (listBooksNova cmpEq false ⟨none, 5⟩ 999 orcDown).result = .error (.http 1 500) ∧
    (listBooksNova cmpEq false ⟨none, 5⟩ 999 orcDown).newCache = ⟨none, 5⟩ :=
  ⟨by decide,
   (c10_cache_write_discipline cmpEq false ⟨none, 5⟩ 999 orcDown).1 (.http 1 500) (by decide)⟩

/-! Claim C4. -/

/-- The sequential loop throws the error of the failing page it stopped at:
    any fetched-and-failing page is reported with its number and status. -/
theorem seqPages_fail (oracle : Oracle) (showAll : Bool) :
    ∀ (pages : List Nat) (p : Nat), p ∈ (seqPages oracle showAll pages).2 →
      (oracle p).ok = false →
      (seqPages oracle showAll pages).1 = .error (pageErr p (oracle p)) := by
  intro pages
  induction pages with
  | nil =>
    intro p hp
    simp [seqPages] at hp
  | cons a rest ih =>
    intro p hp hpf
    by_cases ha : (oracle a).ok = true
    · cases hbody : (oracle a).body with
      | none =>
        simp [seqPages, ha, hbody] at hp
        subst hp
        rw [ha] at hpf
        cases hpf
      | some bs =>
        cases bs with
        | nil =>
          simp [seqPages, ha, hbody] at hp
          subst hp
          rw [ha] at hpf
          cases hpf
        | cons b bs2 =>
          simp [seqPages, ha, hbody] at hp ⊢
          rcases hp with h | h
          · subst h; rw [ha] at hpf; cases hpf
          · rw [ih p h hpf]
            simp [Except.map]
    · have ha2 : (oracle a).ok = false := by simpa using ha
      simp only [seqPages, ha2, Bool.not_false, if_true] at hp ⊢
      simp only [List.mem_singleton] at hp
      subst hp
      rfl

/-- `Promise.all` fail-fast: if some page in the list fails, `gatherPages`
    returns the error of a failing page, carrying that page's number and
    upstream status. -/
theorem gatherPages_error_of_fail (oracle : Oracle) :
    ∀ (pages : List Nat) (p : Nat), p ∈ pages → (oracle p).ok = false →
      ∃ q, q ∈ pages ∧ (oracle q).ok = false ∧
        gatherPages oracle pages = .error (pageErr q (oracle q)) := by
  intro pages
  induction pages with
  | nil => intro p hp; cases hp
  | cons a rest ih =>
    intro p hp hpf
    by_cases ha : (oracle a).ok = true
    · have hp2 : p ∈ rest := by
        rcases List.mem_cons.mp hp with h | h
        · subst h; rw [ha] at hpf; cases hpf
        · exact h
      obtain ⟨q, hq, hqf, hge⟩ := ih p hp2 hpf
      refine ⟨q, List.mem_cons_of_mem _ hq, hqf, ?_⟩
      simp [gatherPages, ha, hge, Except.map]
    · have ha2 : (oracle a).ok = false := by simpa using ha
      exact ⟨a, List.mem_cons_self _ _, ha2, by simp [gatherPages, ha2]⟩

/-- A successful `Promise.all` gather means every page in the list succeeded. -/
theorem gatherPages_ok_all (oracle : Oracle) :
    ∀ (pages : List Nat) (bodies : List (Option (List RawBook))),
      gatherPages oracle pages = .ok bodies →
      ∀ q ∈ pages, (oracle q).ok = true := by
  intro pages
  induction pages with
  | nil => intro bodies h q hq; cases hq
  | cons a rest ih =>
    intro bodies h q hq
    by_cases ha : (oracle a).ok = true
    · rcases List.mem_cons.mp hq with h2 | h2
      · subst h2; exact ha
      · simp only [gatherPages, ha, if_true] at h
        cases hg : gatherPages oracle rest with
        | error e2 => rw [hg] at h; simp [Except.map] at h
        | ok bs => exact ih bs hg q h2
    · have ha2 : (oracle a).ok = false := by simpa using ha
      simp [gatherPages, ha2] at h

/-- The error returned by a failing gather is the thrown error of a
    genuinely failing fetched page. -/
theorem gatherPages_error_inv (oracle : Oracle) :
    ∀ (pages : List Nat) (e : AggErr), gatherPages oracle pages = .error e →
      ∃ q, q ∈ pages ∧ (oracle q).ok = false ∧ e = pageErr q (oracle q) := by
  intro pages
  induction pages with
  | nil => intro e he; simp [gatherPages] at he
  | cons a rest ih =>
    intro e he
    by_cases ha : (oracle a).ok = true
    · simp only [gatherPages, ha, if_true] at he
      cases hg : gatherPages oracle rest with
      | error e2 =>
        rw [hg] at he
        simp [Except.map] at he
        subst he
        obtain ⟨q, h1, h2, h3⟩ := ih e2 hg
        exact ⟨q, List.mem_cons_of_mem _ h1, h2, h3⟩
      | ok bs => rw [hg] at he; simp [Except.map] at he
    · have ha2 : (oracle a).ok = false := by simpa using ha
      simp only [gatherPages, ha2, Bool.false_eq_true, if_false,
        Except.error.injEq] at he
      exact ⟨a, List.mem_cons_self _ _, ha2, he.symm⟩

/-- C4 (amended): if any fetched page of a catalogue aggregation fails —
    non-success status or transport rejection — the whole operation fails
    and no partial list is returned, in the parallel nova/sylva aggregator
    and in the sequential src/server.js one.  The propagated error is the
    failing page's thrown error: for a resolved non-success response it
    carries that page's number and upstream status, while for a
    transport-level rejection it is the transport message alone, carrying
    neither. -/
theorem c4_failed_page_aborts (cmp : String → String → Ordering) (showAll : Bool)
    (st : CacheState) (now : Int) (oracle : Oracle) :
    (∀ p, p ∈ (listBooksNova cmp showAll st now oracle).fetchedPages →
      (oracle p).ok = false →
      ∃ q, q ∈ (listBooksNova cmp showAll st now oracle).fetchedPages ∧
        (oracle q).ok = false ∧
        (listBooksNova cmp showAll st now oracle).result =
          .error (pageErr q (oracle q))) ∧
    (∀ p, p ∈ (listBooksSeq cmp showAll oracle).fetchedPages →
      (oracle p).ok = false →
      (listBooksSeq cmp showAll oracle).result = .error (pageErr p (oracle p))) := by
  constructor
  · intro p hp hpf
    by_cases hcache : (!showAll && cacheFresh st now) = true
    · simp [listBooksNova, hcache] at hp
    · have hcache2 : (!showAll && cacheFresh st now) = false := by simpa using hcache
      by_cases h1 : (oracle 1).ok = true
      · cases hg : gatherPages oracle (pagesToFetch (totalPagesOf (oracle 1))) with
        | error e =>
          obtain ⟨q, hmem, hfail, he⟩ := gatherPages_error_inv oracle _ e hg
          refine ⟨q, ?_, hfail, ?_⟩
          · simp only [listBooksNova, hcache2, Bool.false_eq_true, if_false, h1,
              Bool.not_true, hg]
            exact List.mem_cons_of_mem _ hmem
          · simp only [listBooksNova, hcache2, Bool.false_eq_true, if_false, h1,
              Bool.not_true, hg]
            rw [he]
        | ok bodies =>
          have hall := gatherPages_ok_all oracle _ bodies hg
          have htr : (listBooksNova cmp showAll st now oracle).fetchedPages =
              1 :: pagesToFetch (totalPagesOf (oracle 1)) := by
            simp only [listBooksNova, hcache2, Bool.false_eq_true, if_false, h1,
              Bool.not_true, hg]
            split <;> rfl
          rw [htr] at hp
          rcases List.mem_cons.mp hp with h | h
          · subst h; rw [h1] at hpf; cases hpf
          · rw [hall p h] at hpf; cases hpf
      · have h12 : (oracle 1).ok = false := by simpa using h1
        simp [listBooksNova, hcache2, h12] at hp
        subst hp
        refine ⟨1, ?_, h12, ?_⟩
        · simp [listBooksNova, hcache2, h12]
        · simp [listBooksNova, hcache2, h12]
  · intro p hp hpf
    by_cases h1 : (oracle 1).ok = true
    · cases hbody : (oracle 1).body with
      | none =>
        simp [listBooksSeq, h1, hbody] at hp
        subst hp; rw [h1] at hpf; cases hpf
      | some bs =>
        cases bs with
        | nil =>
          simp [listBooksSeq, h1, hbody] at hp
          subst hp; rw [h1] at hpf; cases hpf
        | cons b bs2 =>
          simp [listBooksSeq, h1, hbody] at hp ⊢
          rcases hp with h | h
          · subst h; rw [h1] at hpf; cases hpf
          · rw [seqPages_fail oracle showAll _ p h hpf]
            simp [Except.map]
    · have h12 : (oracle 1).ok = false := by simpa using h1
      simp [listBooksSeq, h12] at hp
      subst hp
      simp [listBooksSeq, h12]

/-- C4 counterexample: when the fetch of page 2 rejects at transport level,
    the aggregation fails with the propagated transport message — an
    UpstreamError carrying neither the failing page number nor an upstream
    status, although the original claim promised both for transport
    failures. -/
theorem c4_counterexample :
    (listBooksNova cmpEq false ⟨none, 0⟩ 0 orcNetDown).result =
      .error (.network "fetch failed") ∧
    ((fun r => match r with
       | Except.error (AggErr.http _ _) => true
       | _ => false)
      (listBooksNova cmpEq false ⟨none, 0⟩ 0 orcNetDown).result) = false := by
  decide

/-- Witness for C4: an upstream whose page 3 of 4 returns HTTP 500 makes
    both aggregators fail with that page and status, and one whose page 2
    fetch rejects at transport level fails with the page-less transport
    message. -/
theorem c4_failed_page_aborts_witness :
    (∃ q, q ∈ (listBooksNova cmpEq false ⟨none, 0⟩ 0 orcFail3).fetchedPages ∧
      (orcFail3 q).ok = false ∧
      (listBooksNova cmpEq false ⟨none, 0⟩ 0 orcFail3).result =
        .error (pageErr q (orcFail3 q))) ∧
    (listBooksSeq cmpEq false orcFail3).result = .error (pageErr 3 (orcFail3 3)) ∧
    (∃ q, q ∈ (listBooksNova cmpEq false ⟨none, 0⟩ 0 orcNetDown).fetchedPages ∧
      (orcNetDown q).ok = false ∧
      (listBooksNova cmpEq false ⟨none, 0⟩ 0 orcNetDown).result =
        .error (pageErr q (orcNetDown q))) :=
  ⟨(c4_failed_page_aborts cmpEq false ⟨none, 0⟩ 0 orcFail3).1 3 (by decide) (by decide),
   (c4_failed_page_aborts cmpEq false ⟨none, 0⟩ 0 orcFail3).2 3 (by decide) (by decide),
   (c4_failed_page_aborts cmpEq false ⟨none, 0⟩ 0 orcNetDown).1 2 (by decide) (by decide)⟩

/-! Claims C7 and C9. -/

/-- C7 counterexample: `ftp://127.0.0.1/x` has a hostname starting with
    `127.` yet is rejected by the earlier scheme check with a plain
    ValidationError, not BlockedHostError — the claim's "every URL" is too
    wide. -/
theorem c7_counterexample :
    Option.map (fun p => p.hostname) (parseUrl "ftp://127.0.0.1/x") = some "127.0.0.1" ∧
    jsStartsWith "127." "127.0.0.1" = true ∧
    fetchUrlStep (some "ftp://127.0.0.1/x") respHtml =
      (.validationError "Only http and https URLs are supported.", false) := by
  decide

/-- C7 (amended): every http/https URL whose hostname starts with `127.`
    or `10.` is rejected with BlockedHostError before the network is
    contacted (URLs with any other scheme fail earlier with the scheme
    ValidationError); and a successfully fetched page of acceptable content
    type whose extracted plain text is under 20 characters fails with
    NoContentError. -/
theorem c7_blocklist_and_length (url : String) (p : ParsedUrl) (resp : UrlResponse) :
    (parseUrl url = some p →
      (p.protocol = "http:" ∨ p.protocol = "https:") →
      (jsStartsWith "127." p.hostname = true ∨ jsStartsWith "10." p.hostname = true) →
      fetchUrlStep (some url) resp = (.blockedHost, false)) ∧
    (parseUrl url = some p →
      (p.protocol = "http:" ∨ p.protocol = "https:") →
      inBlocklist p.hostname = false →
      resp.timedOut = false → resp.ok = true →
      (containsSub "text/html".data (resp.contentType.getD "").data ||
       containsSub "text/plain".data (resp.contentType.getD "").data ||
       containsSub "application/xhtml".data (resp.contentType.getD "").data) = true →
      (htmlToPlainText resp.body).length < 20 →
      fetchUrlStep (some url) resp = (.noContent, true)) := by
  have hempty : parseUrl "" = none := by decide
  constructor
  · intro hp hproto hblock
    have hu : url ≠ "" := fun h => by rw [h, hempty] at hp; cases hp
    have hjs : jsOr (some url) "" = url := by simp [jsOr, hu]
    have hb : inBlocklist p.hostname = true := by
      rcases hblock with h | h <;> simp [inBlocklist, h]
    simp only [fetchUrlStep, hjs, hu, if_false, hp]
    rcases hproto with h | h <;> simp [h, hb]
  · intro hp hproto hblock htime hok hct hlen
    have hu : url ≠ "" := fun h => by rw [h, hempty] at hp; cases hp
    have hjs : jsOr (some url) "" = url := by simp [jsOr, hu]
    simp only [fetchUrlStep, hjs, hu, if_false, hp]
    rcases hproto with h | h <;>
      simp [h, hblock, htime, hok, hct, hlen]

/-- Witness for C7 at the spec's two blocked URLs and a short-text page. -/
theorem c7_blocklist_and_length_witness :
    fetchUrlStep (some "http://127.0.0.1/x") respHtml = (.blockedHost, false) ∧
    fetchUrlStep (some "http://10.0.0.5/") respHtml = (.blockedHost, false) ∧
    fetchUrlStep (some "https://ok.example.org/") respShort = (.noContent, true) :=
  ⟨(c7_blocklist_and_length "http://127.0.0.1/x" ⟨"http:", "127.0.0.1"⟩ respHtml).1 (by decide)
      (Or.inl (by decide)) (Or.inl (by decide)),
   (c7_blocklist_and_length "http://10.0.0.5/" ⟨"http:", "10.0.0.5"⟩ respHtml).1 (by decide)
      (Or.inl (by decide)) (Or.inr (by decide)),
   (c7_blocklist_and_length "https://ok.example.org/" ⟨"https:", "ok.example.org"⟩ respShort).2 (by decide)
      (Or.inr (by decide)) (by decide) (by decide) (by decide) (by decide) (by decide)⟩

/-- If some element fails the predicate, `dropWhile` ends at a failing
    head. -/
theorem dropWhile_exists_head (p : Char → Bool) :
    ∀ (l : List Char), (∃ c ∈ l, p c = false) →
      ∃ c t, l.dropWhile p = c :: t ∧ p c = false := by
  intro l
  induction l with
  | nil => rintro ⟨c, hc, _⟩; cases hc
  | cons a rest ih =>
    rintro ⟨c, hc, hpc⟩
    by_cases ha : p a = true
    · have hmem : c ∈ rest := by
        rcases List.mem_cons.mp hc with h | h
        · subst h; rw [ha] at hpc; cases hpc
        · exact h
      obtain ⟨c2, t, hd, hp2⟩ := ih ⟨c, hmem, hpc⟩
      exact ⟨c2, t, by simp [List.dropWhile_cons, ha, hd], hp2⟩
    · have ha2 : p a = false := by simpa using ha
      exact ⟨a, rest, by simp [List.dropWhile_cons, ha2], ha2⟩

/-- Trimming keeps a string containing any non-whitespace character
    nonempty. -/
theorem trimChars_ne_nil {l : List Char} (h : ∃ c ∈ l, isJsWsB c = false) :
    trimChars l ≠ [] := by
  obtain ⟨c, t, hd, hc⟩ := dropWhile_exists_head isJsWsB l h
  unfold trimChars
  rw [hd]
  simp [dropTrailingWs, hc]

/-- C9 (amended): when the upstream record carries no usable name or title
    (absent or empty), the entry title is the literal `Untitled`; and the
    title is non-empty whenever the selected name/title contains at least one
    non-whitespace character.  A whitespace-only `metadata.name` however
    passes the JavaScript truthiness test and trims to the empty string. -/
theorem c9_title_fallback (b : RawBook) :
    (jsOr (metaOf b).name "" = "" → jsOr b.title "" = "" →
      (parseBook b).title = "Untitled") ∧
    ((∃ c ∈ (jsOr (metaOf b).name (jsOr b.title "Untitled")).data, isJsWsB c = false) →
      (parseBook b).title ≠ "") := by
  constructor
  · intro h1 h2
    have e1 : jsOr (metaOf b).name (jsOr b.title "Untitled") = "Untitled" := by
      rw [jsOr_of_falsy h1, jsOr_of_falsy h2]
    simp only [parseBook, e1]
    decide
  · intro hex
    have hne := trimChars_ne_nil hex
    simp only [parseBook]
    intro hcon
    exact hne (by simpa using congrArg String.data hcon)

/-- C9 counterexample: an aggregation pass over a record whose
    `metadata.name` is a single space produces an entry whose title is the
    empty string. -/
theorem c9_counterexample :
    (listBooksNova cmpEq false ⟨none, 0⟩ 0 orcSpaceName).result =
      .ok [parseBook (namedBook " ")] ∧
    (parseBook (namedBook " ")).title = "" := by
  decide

/-- Witness for C9: absent fields fall back to `Untitled`; a real name
    yields a non-empty title. -/
theorem c9_title_fallback_witness :
    (parseBook ({} : RawBook)).title = "Untitled" ∧
    (parseBook (namedBook "Real Title")).title ≠ "" :=
  ⟨(c9_title_fallback {}).1 (by decide) (by decide),
   (c9_title_fallback (namedBook "Real Title")).2 ⟨'R', by decide, by decide⟩⟩

/-! Claim C8. -/

/-- When every page in the list succeeds, the parallel gather succeeds. -/
theorem gatherPages_ok_of_all (oracle : Oracle) :
    ∀ (pages : List Nat), (∀ q ∈ pages, (oracle q).ok = true) →
      ∃ bodies, gatherPages oracle pages = .ok bodies := by
  intro pages
  induction pages with
  | nil => intro h; exact ⟨[], rfl⟩
  | cons a rest ih =>
    intro h
    have ha := h a (List.mem_cons_self _ _)
    obtain ⟨bs, hbs⟩ := ih (fun q hq => h q (List.mem_cons_of_mem _ hq))
    exact ⟨(oracle a).body :: bs, by simp [gatherPages, ha, hbs, Except.map]⟩

/-- C8 (amended): in the sequential src/server.js aggregator, an
    empty-or-non-array page reached after any run of non-empty pages stops
    the loop — no page after it is fetched — and the aggregation completes
    successfully; in the parallel nova/sylva aggregator all remaining pages
    are requested up front, so an empty page stops nothing, but the
    aggregation still completes successfully when every page fetch has a
    success status. -/
theorem c8_empty_page_end_of_data (cmp : String → String → Ordering) (oracle : Oracle)
    (showAll : Bool) (st : CacheState) (now : Int) (good rest : List Nat) (p : Nat) :
    ((∀ q ∈ good, (oracle q).ok = true ∧ ∃ bs, (oracle q).body = some bs ∧ bs ≠ []) →
      (oracle p).ok = true → ((oracle p).body = some [] ∨ (oracle p).body = none) →
      (seqPages oracle showAll (good ++ p :: rest)).2 = good ++ [p] ∧
      ∃ l, (seqPages oracle showAll (good ++ p :: rest)).1 = .ok l) ∧
    ((oracle 1).ok = true →
      (∀ q ∈ pagesToFetch (totalPagesOf (oracle 1)), (oracle q).ok = true) →
      ∃ l, (listBooksNova cmp showAll st now oracle).result = .ok l) := by
  constructor
  · intro hgood hpok hpempty
    induction good with
    | nil =>
      rcases hpempty with h | h <;>
        simp [seqPages, hpok, h]
    | cons a good2 ih =>
      obtain ⟨haok, bs, hbs, hbsne⟩ := hgood a (List.mem_cons_self _ _)
      cases bs with
      | nil => cases hbsne rfl
      | cons b bs2 =>
        have ihr := ih (fun q hq => hgood q (List.mem_cons_of_mem _ hq))
        obtain ⟨htr, l, hl⟩ := ihr
        constructor
        · simp only [List.cons_append, seqPages, haok, hbs, Bool.not_true, if_false]
          simp [htr]
        · refine ⟨filterShape showAll (b :: bs2) ++ l, ?_⟩
          simp only [List.cons_append, seqPages, haok, hbs, Bool.not_true, if_false]
          simp [hl, Except.map]
  · intro h1 hall
    by_cases hcache : (!showAll && cacheFresh st now) = true
    · exact ⟨st.booksCache.getD [], by simp [listBooksNova, hcache]⟩
    · have hcache2 : (!showAll && cacheFresh st now) = false := by simpa using hcache
      obtain ⟨bodies, hb⟩ := gatherPages_ok_of_all oracle _ hall
      refine ⟨sortBooks cmp (filterShape showAll
        (flatPage (oracle 1).body ++ (bodies.map flatPage).flatten)), ?_⟩
      simp only [listBooksNova, hcache2, Bool.false_eq_true, if_false, h1,
        Bool.not_true, hb]
      split <;> rfl

/-- C8 counterexample: in the parallel (nova) aggregator, with three
    declared pages whose second is an empty array, page 3 is still requested
    (the trace is `[1, 2, 3]`) and its records appear in the output — the
    empty page does not stop further page requests. -/
theorem c8_counterexample :
    (orcEmptyMid 2).body = some [] ∧
    totalPagesOf (orcEmptyMid 1) = 3 ∧
    (listBooksNova cmpEq true ⟨none, 0⟩ 0 orcEmptyMid).fetchedPages = [1, 2, 3] ∧
    (listBooksNova cmpEq true ⟨none, 0⟩ 0 orcEmptyMid).result =
      .ok [parseBook (namedBook "Zebra"), parseBook (namedBook "Mango")] := by
  decide

/-- Witness for C8: a concrete four-page upstream whose page 3 is empty:
    the sequential loop stops after page 3 and succeeds; the parallel
    aggregator also succeeds. -/
theorem c8_empty_page_end_of_data_witness :
    ((seqPages orcSeqEmpty false ([2] ++ 3 :: [4])).2 = [2] ++ [3] ∧
      ∃ l, (seqPages orcSeqEmpty false ([2] ++ 3 :: [4])).1 = .ok l) ∧
    (∃ l, (listBooksNova cmpEq false ⟨none, 0⟩ 0 orcSeqEmpty).result = .ok l) := by
  refine ⟨?_, ?_⟩
  · exact (c8_empty_page_end_of_data cmpEq orcSeqEmpty false ⟨none, 0⟩ 0 [2] [4] 3).1
      (fun q hq => by
        have hq2 : q = 2 := List.mem_singleton.mp hq
        subst hq2
        exact ⟨by decide, [namedBook "Page"], by decide, by decide⟩)
      (by decide) (Or.inl (by decide))
  · refine (c8_empty_page_end_of_data cmpEq orcSeqEmpty false ⟨none, 0⟩ 0 [] [] 0).2 (by decide)
      (fun q hq => ?_)
    have he : pagesToFetch (totalPagesOf (orcSeqEmpty 1)) = [2, 3, 4] := by decide
    rw [he] at hq
    fin_cases hq <;> decide

/-! Claim C5. -/

/-- Stable insertion, positive case: inserting an element that satisfies the
    filter, into a list whose filtered elements it precedes, puts it at the
    head of the filtered view. -/
theorem orderedInsert_filter_pos {α : Type} (r : α → α → Prop) [DecidableRel r]
    (P : α → Bool) (x : α) :
    ∀ (l : List α), P x = true → (∀ y ∈ l, P y = true → r x y) →
      (l.orderedInsert r x).filter P = x :: l.filter P := by
  intro l
  induction l with
  | nil => intro hx h; simp [List.orderedInsert, hx]
  | cons y ys ih =>
    intro hx h
    by_cases hr : r x y
    · simp [List.orderedInsert, hr, hx]
    · have hPy : P y = false := by
        by_cases hPy2 : P y = true
        · exact absurd (h y (List.mem_cons_self _ _) hPy2) hr
        · simpa using hPy2
      simp [List.orderedInsert, hr, hPy,
        ih hx (fun z hz hPz => h z (List.mem_cons_of_mem _ hz) hPz)]

/-- Stable insertion, negative case: inserting an element outside the
    filter leaves the filtered view unchanged. -/
theorem orderedInsert_filter_neg {α : Type} (r : α → α → Prop) [DecidableRel r]
    (P : α → Bool) (x : α) :
    ∀ (l : List α), P x = false →
      (l.orderedInsert r x).filter P = l.filter P := by
  intro l
  induction l with
  | nil => intro hx; simp [List.orderedInsert, hx]
  | cons y ys ih =>
    intro hx
    by_cases hr : r x y
    · simp [List.orderedInsert, hr, hx]
    · simp [List.orderedInsert, hr, List.filter_cons, ih hx]

/-- Stability of insertion sort: when all elements selected by `P` are
    mutually related, sorting does not reorder them. -/
theorem insertionSort_filter {α : Type} (r : α → α → Prop) [DecidableRel r]
    (P : α → Bool) (hP : ∀ a b, P a = true → P b = true → r a b) :
    ∀ (l : List α), (l.insertionSort r).filter P = l.filter P := by
  intro l
  induction l with
  | nil => rfl
  | cons x xs ih =>
    by_cases hx : P x = true
    · rw [List.insertionSort,
        orderedInsert_filter_pos r P x _ hx (fun y hy hPy => hP x y hx hPy), ih]
      simp [List.filter_cons, hx]
    · have hx2 : P x = false := by simpa using hx
      rw [List.insertionSort, orderedInsert_filter_neg r P x _ hx2, ih]
      simp [List.filter_cons, hx2]

/-- `sortBooks` sorts by title under any total, transitive comparator. -/
theorem sortBooks_sorted (cmp : String → String → Ordering)
    (htot : ∀ s t, cmp s t = Ordering.gt → cmp t s = Ordering.lt)
    (htrans : ∀ s t u, cmp s t ≠ Ordering.gt → cmp t u ≠ Ordering.gt →
      cmp s u ≠ Ordering.gt)
    (l : List Book) : List.Sorted (titleLe cmp) (sortBooks cmp l) := by
  haveI : IsTotal Book (titleLe cmp) := ⟨fun a b => by
    by_cases h : cmp a.title b.title = Ordering.gt
    · right
      unfold titleLe
      rw [htot _ _ h]
      simp
    · left
      exact h⟩
  haveI : IsTrans Book (titleLe cmp) := ⟨fun a b c hab hbc => htrans _ _ _ hab hbc⟩
  exact List.sorted_insertionSort _ l

/-- C5: for every locale comparator that is a total preorder and every
    discovery-order record sequence, the aggregator output is sorted by
    title ascending, entries with (string-)equal titles keep their relative
    discovery order (page order, then position within the page), and the
    nova/sylva handler returns exactly the sort of the discovery-order
    flatten — `Promise.all` preserves page order, so the output does not
    depend on fetch completion order. -/
theorem c5_sorted_stable (cmp : String → String → Ordering) (showAll : Bool)
    (st : CacheState) (now : Int) (oracle : Oracle)
    (hrefl : ∀ s, cmp s s = Ordering.eq)
    (htot : ∀ s t, cmp s t = Ordering.gt → cmp t s = Ordering.lt)
    (htrans : ∀ s t u, cmp s t ≠ Ordering.gt → cmp t u ≠ Ordering.gt →
      cmp s u ≠ Ordering.gt) :
    (∀ raw : List RawBook,
      List.Sorted (titleLe cmp) (sortBooks cmp (filterShape showAll raw)) ∧
      ∀ t, (sortBooks cmp (filterShape showAll raw)).filter
          (fun b => decide (b.title = t)) =
        (filterShape showAll raw).filter (fun b => decide (b.title = t))) ∧
    (∀ bodies, gatherPages oracle (pagesToFetch (totalPagesOf (oracle 1))) = .ok bodies →
      (!showAll && cacheFresh st now) = false → (oracle 1).ok = true →
      (listBooksNova cmp showAll st now oracle).result =
        .ok (sortBooks cmp (filterShape showAll
          (flatPage (oracle 1).body ++ (bodies.map flatPage).flatten)))) := by
  constructor
  · intro raw
    refine ⟨sortBooks_sorted cmp htot htrans _, fun t => ?_⟩
    apply insertionSort_filter
    intro a b ha hb
    have ha2 : a.title = t := of_decide_eq_true ha
    have hb2 : b.title = t := of_decide_eq_true hb
    unfold titleLe
    rw [ha2, hb2, hrefl t]
    simp
  · intro bodies hg hcache h1
    simp only [listBooksNova, hcache, Bool.false_eq_true, if_false, h1,
      Bool.not_true, hg]
    split <;> rfl

/-- Witness for C5 under the all-ties comparator at concrete records. -/
theorem c5_sorted_stable_witness :
    List.Sorted (titleLe cmpEq)
      (sortBooks cmpEq (filterShape true [namedBook "B", namedBook "A"])) ∧
    (sortBooks cmpEq (filterShape true [namedBook "B", namedBook "A"])).filter
        (fun b => decide (b.title = "A")) =
      (filterShape true [namedBook "B", namedBook "A"]).filter
        (fun b => decide (b.title = "A")) ∧
    (listBooksNova cmpEq false ⟨none, 0⟩ 0 orcSeqEmpty).result =
      .ok (sortBooks cmpEq (filterShape false
        (flatPage (orcSeqEmpty 1).body ++
          (([some [namedBook "Page"], some [], some [namedBook "Page"]] :
            List (Option (List RawBook))).map flatPage).flatten))) := by
  have hrefl : ∀ s, cmpEq s s = Ordering.eq := fun _ => rfl
  have htot : ∀ s t, cmpEq s t = Ordering.gt → cmpEq t s = Ordering.lt :=
    fun _ _ h => nomatch h
  have htrans : ∀ s t u, cmpEq s t ≠ Ordering.gt → cmpEq t u ≠ Ordering.gt →
      cmpEq s u ≠ Ordering.gt := fun _ _ _ _ _ => by simp [cmpEq]
  exact ⟨((c5_sorted_stable cmpEq true ⟨none, 0⟩ 0 orcSeqEmpty hrefl htot htrans).1 _).1,
         ((c5_sorted_stable cmpEq true ⟨none, 0⟩ 0 orcSeqEmpty hrefl htot htrans).1 _).2 "A",
         (c5_sorted_stable cmpEq false ⟨none, 0⟩ 0 orcSeqEmpty hrefl htot htrans).2 _
           (by decide) (by decide) (by decide)⟩

/-! Claim C1. -/

/-- A space or tab is not a newline. -/
theorem isHws_ne_nl {c : Char} (h : isHws c = true) : c ≠ '\n' := by
  have h2 : c = ' ' ∨ c = '\t' := by simpa [isHws] using h
  rcases h2 with rfl | rfl <;> decide

/-- The acceptor is monotone in the pending-newline count. -/
theorem okNL_mono : ∀ (s : List Char) (k k2 : Nat), k2 ≤ k →
    okNL k s = true → okNL k2 s = true := by
  intro s
  induction s with
  | nil => intro k k2 _ _; rfl
  | cons c rest ih =>
    intro k k2 hle h
    by_cases hc : c = '\n'
    · simp only [okNL, hc, if_true, Bool.and_eq_true, decide_eq_true_eq] at h ⊢
      exact ⟨by omega, ih (k + 1) (k2 + 1) (by omega) h.2⟩
    · simpa [okNL, hc] using h

/-- The newline collapse never emits a third consecutive newline: its
    output is accepted from any pending count bounded by the scanner
    state. -/
theorem okNL_collapseNLGo : ∀ (s : List Char) (j k : Nat), j ≤ k →
    okNL j (collapseNLGo k s) = true := by
  intro s
  induction s with
  | nil => intro j k _; rfl
  | cons c rest ih =>
    intro j k hjk
    by_cases hc : c = '\n'
    · by_cases hk : k < 2
      · simp only [collapseNLGo, hc, if_true, hk, okNL, Bool.and_eq_true,
          decide_eq_true_eq]
        exact ⟨by omega, ih (j + 1) (k + 1) (by omega)⟩
      · simp only [collapseNLGo, hc, if_true, hk, if_false]
        exact ih j k hjk
    · simp only [collapseNLGo, hc, if_false, okNL]
      exact ih 0 0 le_rfl

/-- The horizontal-whitespace collapse preserves the no-triple-newline
    property: it only contracts space/tab runs, never removing the
    separators between newline runs. -/
theorem okNL_collapseHwsGo : ∀ (s : List Char) (k : Nat) (pending : Option (Char × Bool)),
    (∀ c0 b, pending = some (c0, b) → isHws c0 = true) →
    (match pending with
     | none => okNL k s = true
     | some _ => okNL 0 s = true) →
    okNL k (collapseHwsGo pending s) = true := by
  intro s
  induction s with
  | nil =>
    intro k pending hinv hok
    cases pending with
    | none => rfl
    | some cb =>
      obtain ⟨c0, b⟩ := cb
      have hc0 := isHws_ne_nl (hinv c0 b rfl)
      cases b <;> simp [collapseHwsGo, hwsFlush, okNL, hc0]
  | cons c rest ih =>
    intro k pending hinv hok
    by_cases hc : isHws c = true
    · have hcn := isHws_ne_nl hc
      cases pending with
      | none =>
        simp only [collapseHwsGo, hc, if_true]
        refine ih k (some (c, false)) (fun c0 b hh => by cases hh; exact hc) ?_
        simpa [okNL, hcn] using hok
      | some cb =>
        obtain ⟨c0, b⟩ := cb
        simp only [collapseHwsGo, hc, if_true]
        refine ih k (some (c0, true)) (fun c1 b1 hh => by cases hh; exact hinv c0 b rfl) ?_
        simpa [okNL, hcn] using hok
    · have hc2 : isHws c = false := by simpa using hc
      cases pending with
      | none =>
        simp only [collapseHwsGo, hc2, Bool.false_eq_true, if_false, hwsFlush,
          List.nil_append]
        by_cases hcn : c = '\n'
        · simp only [okNL, hcn, if_true, Bool.and_eq_true] at hok ⊢
          exact ⟨hok.1, ih (k + 1) none (fun _ _ hh => by cases hh) hok.2⟩
        · simp only [okNL, hcn, if_false] at hok ⊢
          exact ih 0 none (fun _ _ hh => by cases hh) hok
      | some cb =>
        obtain ⟨c0, b⟩ := cb
        have hc0 := isHws_ne_nl (hinv c0 b rfl)
        have hgoal : okNL 0 (c :: collapseHwsGo none rest) = true := by
          by_cases hcn : c = '\n'
          · simp only [okNL, hcn, if_true, Bool.and_eq_true] at hok ⊢
            refine ⟨by decide, ih 1 none (fun _ _ hh => by cases hh) hok.2⟩
          · simp only [okNL, hcn, if_false] at hok ⊢
            exact ih 0 none (fun _ _ hh => by cases hh) hok
        cases b <;>
          simp only [collapseHwsGo, hc2, Bool.false_eq_true, if_false, hwsFlush,
            List.cons_append, List.nil_append] <;>
          simpa [okNL, hc0] using hgoal

/-- Dropping a prefix preserves the no-triple-newline property. -/
theorem okNL_dropWhile (p : Char → Bool) :
    ∀ (s : List Char), okNL 0 s = true → okNL 0 (s.dropWhile p) = true := by
  intro s
  induction s with
  | nil => intro h; exact h
  | cons c rest ih =>
    intro h
    by_cases hp : p c = true
    · rw [List.dropWhile_cons, if_pos hp]
      refine ih ?_
      by_cases hcn : c = '\n'
      · simp only [okNL, hcn, if_true, Bool.and_eq_true] at h
        exact okNL_mono rest 1 0 (by omega) h.2
      · simpa [okNL, hcn] using h
    · rw [List.dropWhile_cons, if_neg (by simpa using hp)]
      exact h

/-- Dropping trailing whitespace preserves the no-triple-newline
    property. -/
theorem okNL_dropTrailingWs : ∀ (s : List Char) (k : Nat),
    okNL k s = true → okNL k (dropTrailingWs s) = true := by
  intro s
  induction s with
  | nil => intro k h; exact h
  | cons c rest ih =>
    intro k h
    simp only [dropTrailingWs]
    split
    · rfl
    · by_cases hcn : c = '\n'
      · simp only [okNL, hcn, if_true, Bool.and_eq_true] at h ⊢
        exact ⟨h.1, ih (k + 1) h.2⟩
      · simp only [okNL, hcn, if_false] at h ⊢
        exact ih 0 h

/-- A string containing three consecutive newlines is rejected by the
    acceptor, whatever the pending count. -/
theorem okNL_false_of_triple : ∀ (pre suf : List Char) (k : Nat),
    okNL k (pre ++ '\n' :: '\n' :: '\n' :: suf) = false := by
  intro pre
  induction pre with
  | nil =>
    intro suf k
    have h3 : ¬ (k + 3 ≤ 2) := by omega
    simp [okNL, h3]
  | cons c pre2 ih =>
    intro suf k
    by_cases hc : c = '\n' <;> simp [okNL, hc, ih]

/-- Script/style removal is the identity on inputs without `'<'`. -/
theorem removeTagBlockF_id (tn cl : List Char) :
    ∀ (fuel : Nat) (s : List Char), (∀ c ∈ s, c ≠ '<') →
      removeTagBlockF tn cl fuel s = s := by
  intro fuel
  induction fuel with
  | zero => intro s _; rfl
  | succ fuel ih =>
    intro s h
    cases s with
    | nil => rfl
    | cons c rest =>
      have hc : c ≠ '<' := h c (List.mem_cons_self _ _)
      simp [removeTagBlockF, hc,
        ih rest (fun x hx => h x (List.mem_cons_of_mem _ hx))]

/-- Block-tag conversion is the identity on inputs without `'<'`. -/
theorem blockToNewlineF_id :
    ∀ (fuel : Nat) (s : List Char), (∀ c ∈ s, c ≠ '<') →
      blockToNewlineF fuel s = s := by
  intro fuel
  induction fuel with
  | zero => intro s _; rfl
  | succ fuel ih =>
    intro s h
    cases s with
    | nil => rfl
    | cons c rest =>
      have hc : c ≠ '<' := h c (List.mem_cons_self _ _)
      simp [blockToNewlineF, hc,
        ih rest (fun x hx => h x (List.mem_cons_of_mem _ hx))]

/-- Tag stripping is the identity on inputs without `'<'`. -/
theorem stripTagsF_id :
    ∀ (fuel : Nat) (s : List Char), (∀ c ∈ s, c ≠ '<') →
      stripTagsF fuel s = s := by
  intro fuel
  induction fuel with
  | zero => intro s _; rfl
  | succ fuel ih =>
    intro s h
    cases s with
    | nil => rfl
    | cons c rest =>
      have hc : c ≠ '<' := h c (List.mem_cons_self _ _)
      simp [stripTagsF, hc,
        ih rest (fun x hx => h x (List.mem_cons_of_mem _ hx))]

/-- A global replacement whose pattern starts with a character absent from
    the input is the identity. -/
theorem replaceAllF_id (p : Char) (ps rep : List Char) :
    ∀ (fuel : Nat) (s : List Char), (∀ c ∈ s, c ≠ p) →
      replaceAllF p ps rep fuel s = s := by
  intro fuel
  induction fuel with
  | zero => intro s _; rfl
  | succ fuel ih =>
    intro s h
    cases s with
    | nil => rfl
    | cons c rest =>
      have hc : c ≠ p := h c (List.mem_cons_self _ _)
      simp [replaceAllF, hc,
        ih rest (fun x hx => h x (List.mem_cons_of_mem _ hx))]

/-- Entity decoding is the identity on inputs without `'&'` (every decoded
    entity starts with an ampersand). -/
theorem decodeEntities_id (s : List Char) (h : ∀ c ∈ s, c ≠ '&') :
    decodeEntities s = s := by
  have hid : ∀ ps rep, replaceAllL '&' ps rep s = s :=
    fun ps rep => replaceAllF_id '&' ps rep s.length s h
  simp [decodeEntities, hid]

/-- Every character emitted by the newline collapse occurs in its input. -/
theorem mem_collapseNLGo : ∀ (s : List Char) (k : Nat) (x : Char),
    x ∈ collapseNLGo k s → x ∈ s := by
  intro s
  induction s with
  | nil => intro k x hx; cases hx
  | cons c rest ih =>
    intro k x hx
    by_cases hc : c = '\n'
    · by_cases hk : k < 2
      · simp only [collapseNLGo, hc, if_true, hk] at hx
        rcases List.mem_cons.mp hx with h | h
        · rw [h, hc]
          exact List.mem_cons_self _ _
        · exact List.mem_cons_of_mem _ (ih (k + 1) x h)
      · simp only [collapseNLGo, hc, if_true, hk, if_false] at hx
        exact List.mem_cons_of_mem _ (ih k x hx)
    · simp only [collapseNLGo, hc, if_false] at hx
      rcases List.mem_cons.mp hx with h | h
      · rw [h]
        exact List.mem_cons_self _ _
      · exact List.mem_cons_of_mem _ (ih 0 x h)

/-- Characters emitted by the horizontal-whitespace collapse satisfy any
    property holding of the input characters, the pending character and the
    space. -/
theorem mem_collapseHwsGo (Q : Char → Prop) (hsp : Q ' ') :
    ∀ (s : List Char) (pending : Option (Char × Bool)),
      (∀ c ∈ s, Q c) → (∀ c0 b, pending = some (c0, b) → Q c0) →
      ∀ x ∈ collapseHwsGo pending s, Q x := by
  intro s
  induction s with
  | nil =>
    intro pending hs hp x hx
    cases pending with
    | none => cases hx
    | some cb =>
      obtain ⟨c0, b⟩ := cb
      cases b
      · simp only [collapseHwsGo, hwsFlush, List.mem_singleton] at hx
        rw [hx]
        exact hp c0 false rfl
      · simp only [collapseHwsGo, hwsFlush, List.mem_singleton] at hx
        rw [hx]
        exact hsp
  | cons c rest ih =>
    intro pending hs hp x hx
    have hsr : ∀ y ∈ rest, Q y := fun y hy => hs y (List.mem_cons_of_mem _ hy)
    by_cases hc : isHws c = true
    · cases pending with
      | none =>
        simp only [collapseHwsGo, hc, if_true] at hx
        exact ih (some (c, false)) hsr
          (fun c0 b hh => by cases hh; exact hs c (List.mem_cons_self _ _)) x hx
      | some cb =>
        obtain ⟨c0, b⟩ := cb
        simp only [collapseHwsGo, hc, if_true] at hx
        exact ih (some (c0, true)) hsr
          (fun c1 b1 hh => by cases hh; exact hp c0 b rfl) x hx
    · have hc2 : isHws c = false := by simpa using hc
      cases pending with
      | none =>
        simp only [collapseHwsGo, hc2, Bool.false_eq_true, if_false, hwsFlush,
          List.nil_append] at hx
        rcases List.mem_cons.mp hx with h | h
        · rw [h]
          exact hs c (List.mem_cons_self _ _)
        · exact ih none hsr (fun _ _ hh => by cases hh) x h
      | some cb =>
        obtain ⟨c0, b⟩ := cb
        cases b
        · simp only [collapseHwsGo, hc2, Bool.false_eq_true, if_false, hwsFlush,
            List.cons_append, List.nil_append] at hx
          rcases List.mem_cons.mp hx with h | h
          · rw [h]
            exact hp c0 false rfl
          rcases List.mem_cons.mp h with h2 | h2
          · rw [h2]
            exact hs c (List.mem_cons_self _ _)
          · exact ih none hsr (fun _ _ hh => by cases hh) x h2
        · simp only [collapseHwsGo, hc2, Bool.false_eq_true, if_false, hwsFlush,
            List.cons_append, List.nil_append] at hx
          rcases List.mem_cons.mp hx with h | h
          · rw [h]
            exact hsp
          rcases List.mem_cons.mp h with h2 | h2
          · rw [h2]
            exact hs c (List.mem_cons_self _ _)
          · exact ih none hsr (fun _ _ hh => by cases hh) x h2

/-- Dropping trailing whitespace only removes characters. -/
theorem mem_dropTrailingWs : ∀ (s : List Char) (x : Char),
    x ∈ dropTrailingWs s → x ∈ s := by
  intro s
  induction s with
  | nil => intro x hx; cases hx
  | cons c rest ih =>
    intro x hx
    simp only [dropTrailingWs] at hx
    split at hx
    · cases hx
    · rcases List.mem_cons.mp hx with h | h
      · rw [h]
        exact List.mem_cons_self _ _
      · exact List.mem_cons_of_mem _ (ih x h)

/-- C1 (amended): for every input string the output of `htmlToPlainText`
    contains no run of three or more consecutive newlines; and for inputs
    containing none of `'<'`, `'>'`, `'&'` the output contains no `'<'` or
    `'>'`.  (A stray unmatched bracket, or a decoded `&lt;`/`&gt;` entity —
    decoding runs after tag stripping — can put brackets in the output, so
    the bracket guarantee cannot be unconditional.) -/
theorem c1_html_extractor (s : String) :
    (¬ ['\n', '\n', '\n'] <:+: (htmlToPlainText s).data) ∧
    ((∀ c ∈ s.data, c ≠ '<' ∧ c ≠ '>' ∧ c ≠ '&') →
      ∀ c ∈ (htmlToPlainText s).data, c ≠ '<' ∧ c ≠ '>') := by
  have hdata : (htmlToPlainText s).data = htmlToPlainTextL s.data := by
    unfold htmlToPlainText
    dsimp only
  constructor
  · rintro ⟨pre, suf, heq⟩
    have h1 : okNL 0 (htmlToPlainTextL s.data) = true := by
      unfold htmlToPlainTextL trimChars collapseHws collapseNL
      apply okNL_dropTrailingWs
      apply okNL_dropWhile
      refine okNL_collapseHwsGo _ 0 none (fun _ _ hh => by cases hh) ?_
      exact okNL_collapseNLGo _ 0 0 le_rfl
    rw [← hdata, ← heq, List.append_assoc] at h1
    simp only [List.cons_append, List.nil_append] at h1
    have h2 := okNL_false_of_triple pre suf 0
    rw [h2] at h1
    cases h1
  · intro hall c hc
    rw [hdata] at hc
    have h40 : ∀ x ∈ s.data, x ≠ '<' := fun x hx => (hall x hx).1
    have h41 : ∀ x ∈ s.data, x ≠ '&' := fun x hx => (hall x hx).2.2
    have e1 : removeTagBlock "script".data "</script>".data s.data = s.data :=
      removeTagBlockF_id _ _ _ _ h40
    have e2 : removeTagBlock "style".data "</style>".data s.data = s.data :=
      removeTagBlockF_id _ _ _ _ h40
    have e3 : blockToNewline s.data = s.data := blockToNewlineF_id _ _ h40
    have e4 : stripTags s.data = s.data := stripTagsF_id _ _ h40
    have e5 : decodeEntities s.data = s.data := decodeEntities_id _ h41
    have epipe : htmlToPlainTextL s.data =
        trimChars (collapseHws (collapseNL s.data)) := by
      unfold htmlToPlainTextL
      rw [e1, e2, e3, e4, e5]
    rw [epipe] at hc
    unfold trimChars at hc
    have hc2 : c ∈ (collapseHws (collapseNL s.data)).dropWhile isJsWsB :=
      mem_dropTrailingWs _ c hc
    have hc3 : c ∈ collapseHws (collapseNL s.data) :=
      (List.dropWhile_sublist _).subset hc2
    refine mem_collapseHwsGo (fun x => x ≠ '<' ∧ x ≠ '>') (by decide) _ none
      ?_ (fun _ _ hh => by cases hh) c hc3
    intro y hy
    have hy2 : y ∈ s.data := mem_collapseNLGo s.data 0 y hy
    exact ⟨(hall y hy2).1, (hall y hy2).2.1⟩

/-- C1 counterexample: the single character `"<"` matches no tag pattern
    (`<[^>]+>` needs a closing bracket) and passes through to the output,
    which therefore contains `'<'`. -/
theorem c1_counterexample :
    htmlToPlainText "<" = "<" ∧ '<' ∈ (htmlToPlainText "<").data := by
  decide

/-- Witness for C1 at a clean concrete input. -/
theorem c1_html_extractor_witness :
    (¬ ['\n', '\n', '\n'] <:+: (htmlToPlainText "hi there").data) ∧
    (∀ c ∈ (htmlToPlainText "hi there").data, c ≠ '<' ∧ c ≠ '>') :=
  ⟨(c1_html_extractor "hi there").1, (c1_html_extractor "hi there").2 (by decide)⟩

end OpenMargins
